import Mathlib

/-!
Verification of the attendance reconciliation script (`main.py`).

The script reads a bot-produced attendance log, matches the extracted
username tokens against a spreadsheet roster sheet, computes a capped
per-week attendance score and writes the scores back.  We give a shallow
embedding of its data model and operations:

* spreadsheet cells are modelled by `Cell` (empty / string / integer;
  numeric cells are modelled as integers),
* the Python `dict` keyed by username cells is modelled by an
  insertion-ordered association list (`Dict`) with Python's
  replace-in-place / append-at-end assignment semantics,
* each fallible operation returns `Except String`, mirroring the places
  where the Python code raises (including the `AttributeError`,
  `TypeError` and `NameError` paths that its blanket `except` clauses
  turn into generic failures),
* the iteration order of Python's `set(usernames)` is unspecified; we
  iterate over `usernames.dedup`.  The reconciliation result and its
  success/failure are order-independent, so this is a faithful
  determinization.
-/

namespace Attendance

/-- Value of one spreadsheet cell: empty (`None`), a string, or a number
(numeric cells are modelled as integers). -/
inductive Cell where
  | empty : Cell
  | str : String → Cell
  | num : Int → Cell
deriving DecidableEq, Repr

/-- Constant `MAX_SCORE = 2` from the configuration block of `main.py`. -/
def MAX_SCORE : Int := 2

/-- The `StudentAttendance` named tuple: username, student id, score. -/
structure StudentAttendance where
  username : Cell
  sid : Cell
  score : Int
deriving DecidableEq, Repr

/-- The tutorial dictionary: an insertion-ordered map from username cell
to record, as Python's `dict` is. -/
abbrev Dict := List (Cell × StudentAttendance)

/-- Python `d[key]` read (first—and, for an actual `dict`, only—binding). -/
def dictLookup : Dict → Cell → Option StudentAttendance
  | [], _ => none
  | (k, v) :: d, key => if key = k then some v else dictLookup d key

/-- Python `d[key] = v`: replace in place when the key is present,
append at the end otherwise. -/
def dictInsert : Dict → Cell → StudentAttendance → Dict
  | [], key, v => [(key, v)]
  | (k, w) :: d, key, v =>
      if key = k then (key, v) :: d else (k, w) :: dictInsert d key v

/-- The keys of the dictionary are pairwise distinct (true of every
actual Python `dict`, and of every `RosterIndex` per the data model). -/
def keysNodup (d : Dict) : Prop := (d.map (fun p => p.1)).Nodup

instance (d : Dict) : Decidable (keysNodup d) := by
  unfold keysNodup; infer_instance

theorem dictLookup_insert (d : Dict) (k : Cell) (v : StudentAttendance)
    (k' : Cell) :
    dictLookup (dictInsert d k v) k' =
      if k' = k then some v else dictLookup d k' := by
  induction d with
  | nil => simp [dictInsert, dictLookup]
  | cons p d ih =>
      obtain ⟨k0, w⟩ := p
      by_cases h : k = k0
      · subst h
        by_cases h' : k' = k <;> simp [dictInsert, dictLookup, h']
      · by_cases h' : k' = k0
        · subst h'
          simp [dictInsert, dictLookup, h, Ne.symm h, ih]
        · simp [dictInsert, dictLookup, h, h', ih]

theorem dictInsert_keys (d : Dict) (k : Cell) (v : StudentAttendance)
    (h : (dictLookup d k).isSome = true) :
    (dictInsert d k v).map (fun p => p.1) = d.map (fun p => p.1) := by
  induction d with
  | nil => simp [dictLookup] at h
  | cons p d ih =>
      obtain ⟨k0, w⟩ := p
      by_cases hk : k = k0
      · subst hk; simp [dictInsert]
      · simp only [dictLookup, if_neg hk] at h
        simp [dictInsert, hk, ih h]

theorem dictInsert_eq_append (d : Dict) (k : Cell) (v : StudentAttendance)
    (h : dictLookup d k = none) :
    dictInsert d k v = d ++ [(k, v)] := by
  induction d with
  | nil => simp [dictInsert]
  | cons p d ih =>
      obtain ⟨k0, w⟩ := p
      by_cases hk : k = k0
      · simp [dictLookup, hk] at h
      · simp only [dictLookup, if_neg hk] at h
        simp [dictInsert, hk, ih h]

theorem dictLookup_eq_none_iff (d : Dict) (k : Cell) :
    dictLookup d k = none ↔ ∀ p ∈ d, p.1 ≠ k := by
  induction d with
  | nil => simp [dictLookup]
  | cons p d ih =>
      obtain ⟨k0, w⟩ := p
      by_cases hk : k = k0
      · subst hk; simp [dictLookup]
      · simp [dictLookup, hk, ih, Ne.symm hk]

/-! ### The reconciler (`_update_attendance`) -/

/-- New score rule from `_update_attendance`: the multiplicity becomes the
score unless the student already has the maximum score. -/
def newScore (old : Int) (m : Nat) : Int :=
  if old < MAX_SCORE then (m : Int) else MAX_SCORE

/-- One iteration of the reconciliation loop for the distinct username
`u`: skip (with a console warning) when `u` is not a roster key; raise
when its multiplicity exceeds 2; otherwise replace the record, keeping
the student id and setting the new score. -/
def update_step (usernames : List String) (d : Dict) (u : String) :
    Except String Dict :=
  match dictLookup d (Cell.str u) with
  | none => .ok d
  | some r =>
      if 2 < usernames.count u then
        .error ("Invalid student attendance with username: " ++ u)
      else
        .ok (dictInsert d (Cell.str u)
          ⟨Cell.str u, r.sid, newScore r.score (usernames.count u)⟩)

/-- The reconciliation loop over the distinct usernames. -/
def update_loop (usernames : List String) : Dict → List String →
    Except String Dict
  | d, [] => .ok d
  | d, u :: rest =>
      match update_step usernames d u with
      | .error e => .error e
      | .ok d' => update_loop usernames d' rest

/-- The reconciled tutorial dictionary (the state of `tutorial_dict`
after `_update_attendance`'s loop). -/
def updateIndex (usernames : List String) (d : Dict) : Except String Dict :=
  update_loop usernames d usernames.dedup

/-- Function `_update_attendance`: reconcile and return `list(tutorial_dict.values())`. -/
def update_attendance (usernames : List String) (d : Dict) :
    Except String (List StudentAttendance) :=
  match updateIndex usernames d with
  | .error e => .error e
  | .ok d' => .ok (d'.map (fun p => p.2))

/-- The effect of a successful reconciliation on a single dictionary
entry: an entry whose key is an attended username gets the new score,
every other entry is untouched. -/
def markEntry (usernames : List String) (l : List String)
    (p : Cell × StudentAttendance) : Cell × StudentAttendance :=
  match p with
  | (Cell.str u, r) =>
      if u ∈ l then
        (Cell.str u, ⟨Cell.str u, r.sid, newScore r.score (usernames.count u)⟩)
      else
        (Cell.str u, r)
  | p => p

theorem markEntry_fst (usernames l : List String)
    (p : Cell × StudentAttendance) : (markEntry usernames l p).1 = p.1 := by
  obtain ⟨k, r⟩ := p
  cases k <;> simp [markEntry]
  split <;> rfl

theorem markEntry_congr (us1 us2 l1 l2 : List String)
    (p : Cell × StudentAttendance)
    (h : ∀ w, p.1 = Cell.str w →
      ((w ∈ l1 ↔ w ∈ l2) ∧ us1.count w = us2.count w)) :
    markEntry us1 l1 p = markEntry us2 l2 p := by
  obtain ⟨k, r⟩ := p
  cases k with
  | empty => rfl
  | num n => rfl
  | str w =>
      obtain ⟨hmem, hcnt⟩ := h w rfl
      by_cases hw : w ∈ l1
      · simp [markEntry, hw, hmem.mp hw, hcnt]
      · have hw2 : w ∉ l2 := fun h2 => hw (hmem.mpr h2)
        simp [markEntry, hw, hw2]

theorem dictLookup_map_markEntry (usernames l : List String) (d : Dict)
    (k : Cell) :
    dictLookup (d.map (markEntry usernames l)) k =
      Option.map (fun r => (markEntry usernames l (k, r)).2)
        (dictLookup d k) := by
  induction d with
  | nil => simp [dictLookup]
  | cons p d ih =>
      obtain ⟨k0, w⟩ := p
      by_cases hk : k = k0
      · subst hk
        have h1 : (markEntry usernames l (k, w)).1 = k :=
          markEntry_fst usernames l (k, w)
        have : markEntry usernames l (k, w) =
            ((markEntry usernames l (k, w)).1,
             (markEntry usernames l (k, w)).2) := rfl
        rw [List.map_cons, this, h1]
        simp [dictLookup]
      · have h1 : (markEntry usernames l (k0, w)).1 = k0 :=
          markEntry_fst usernames l (k0, w)
        have : markEntry usernames l (k0, w) =
            ((markEntry usernames l (k0, w)).1,
             (markEntry usernames l (k0, w)).2) := rfl
        rw [List.map_cons, this, h1]
        simp [dictLookup, hk, ih]

theorem update_step_some (usernames : List String) (d d2 : Dict) (v : String)
    (h : update_step usernames d v = .ok d2) (k : Cell) :
    (dictLookup d2 k).isSome = (dictLookup d k).isSome := by
  unfold update_step at h
  split at h
  · rename_i hv
    cases h
    rfl
  · rename_i r hv
    split at h
    · cases h
    · cases h
      rw [dictLookup_insert]
      by_cases hk : k = Cell.str v
      · subst hk
        simp [hv]
      · rw [if_neg hk]

theorem insert_map_markEntry (usernames : List String) (v : String)
    (rest : List String) (r : StudentAttendance) :
    ∀ d : Dict, keysNodup d → dictLookup d (Cell.str v) = some r →
      v ∉ rest →
      (dictInsert d (Cell.str v)
          ⟨Cell.str v, r.sid, newScore r.score (usernames.count v)⟩).map
        (markEntry usernames rest) =
      d.map (markEntry usernames (v :: rest)) := by
  intro d
  induction d with
  | nil => intro _ hv; simp [dictLookup] at hv
  | cons p d ih =>
      obtain ⟨k0, w⟩ := p
      intro hnodup hv hvr
      by_cases hk : Cell.str v = k0
      · subst hk
        simp only [dictLookup, if_true, eq_self_iff_true] at hv
        rw [Option.some_inj] at hv
        symm at hv
        subst hv
        have hins : dictInsert ((Cell.str v, r) :: d) (Cell.str v)
            ⟨Cell.str v, r.sid, newScore r.score (usernames.count v)⟩ =
            (Cell.str v,
              (⟨Cell.str v, r.sid,
                newScore r.score (usernames.count v)⟩ : StudentAttendance))
              :: d := by
          simp [dictInsert]
        rw [hins, List.map_cons, List.map_cons]
        have hhead : markEntry usernames rest
            (Cell.str v, (⟨Cell.str v, r.sid,
              newScore r.score (usernames.count v)⟩ : StudentAttendance)) =
            markEntry usernames (v :: rest) (Cell.str v, r) := by
          simp [markEntry, hvr, newScore]
        rw [hhead]
        have htail : d.map (markEntry usernames rest) =
            d.map (markEntry usernames (v :: rest)) := by
          apply List.map_congr_left
          intro p hp
          apply markEntry_congr
          intro w' hw'
          constructor
          · constructor
            · intro h1; exact List.mem_cons_of_mem _ h1
            · intro h1
              rcases List.mem_cons.mp h1 with h2 | h2
              · exfalso
                unfold keysNodup at hnodup
                rw [List.map_cons, List.nodup_cons] at hnodup
                exact hnodup.1 (by
                  subst h2
                  rw [← hw']
                  exact List.mem_map_of_mem (fun p => p.1) hp)
              · exact h2
          · rfl
        rw [htail]
      · simp only [dictLookup, if_neg hk] at hv
        simp only [dictInsert, if_neg hk, List.map_cons]
        have hnodup' : keysNodup d := by
          unfold keysNodup at hnodup ⊢
          rw [List.map_cons, List.nodup_cons] at hnodup
          exact hnodup.2
        rw [ih hnodup' hv hvr]
        congr 1
        apply markEntry_congr
        intro w' hw'
        have hw'' : k0 = Cell.str w' := hw'
        constructor
        · rw [hw''] at hk
          have hne : w' ≠ v := fun h => hk (by rw [h])
          simp [List.mem_cons, hne]
        · rfl

theorem update_loop_ok (usernames : List String) :
    ∀ (l : List String) (d : Dict), l.Nodup → keysNodup d →
      (∀ u ∈ l, (dictLookup d (Cell.str u)).isSome = true →
        usernames.count u ≤ 2) →
      update_loop usernames d l = .ok (d.map (markEntry usernames l)) := by
  intro l
  induction l with
  | nil =>
      intro d _ _ _
      simp only [update_loop]
      congr 1
      have hnil : ∀ p : Cell × StudentAttendance,
          markEntry usernames [] p = p := by
        intro p
        obtain ⟨k, r⟩ := p
        cases k <;> simp [markEntry]
      rw [show markEntry usernames [] = id from funext hnil, List.map_id]
  | cons v rest ih =>
      intro d hl hk hcond
      have hvr : v ∉ rest := (List.nodup_cons.mp hl).1
      have hrest : rest.Nodup := (List.nodup_cons.mp hl).2
      cases hv : dictLookup d (Cell.str v) with
      | none =>
          have hstep : update_step usernames d v = .ok d := by
            simp [update_step, hv]
          simp only [update_loop, hstep]
          rw [ih d hrest hk
            (fun u hu hsome => hcond u (List.mem_cons_of_mem _ hu) hsome)]
          congr 1
          apply List.map_congr_left
          intro p hp
          apply markEntry_congr
          intro w hw
          constructor
          · have hne : w ≠ v := by
              intro h
              subst h
              rw [dictLookup_eq_none_iff] at hv
              exact hv p hp hw
            simp [List.mem_cons, hne]
          · rfl
      | some r =>
          have hcnt : usernames.count v ≤ 2 :=
            hcond v (List.mem_cons_self v rest) (by simp [hv])
          have hstep : update_step usernames d v =
              .ok (dictInsert d (Cell.str v)
                ⟨Cell.str v, r.sid, newScore r.score (usernames.count v)⟩) := by
            simp [update_step, hv, Nat.not_lt.mpr hcnt]
          simp only [update_loop, hstep]
          set d2 := dictInsert d (Cell.str v)
            ⟨Cell.str v, r.sid, newScore r.score (usernames.count v)⟩ with hd2
          have hk2 : keysNodup d2 := by
            unfold keysNodup
            rw [hd2, dictInsert_keys d _ _ (by simp [hv])]
            exact hk
          have hcond2 : ∀ u ∈ rest,
              (dictLookup d2 (Cell.str u)).isSome = true →
              usernames.count u ≤ 2 := by
            intro u hu hsome
            apply hcond u (List.mem_cons_of_mem _ hu)
            rw [hd2, dictLookup_insert] at hsome
            by_cases he : Cell.str u = Cell.str v
            · have : u = v := by injection he
              subst this
              simp [hv]
            · rwa [if_neg he] at hsome
          rw [ih d2 hrest hk2 hcond2, hd2,
            insert_map_markEntry usernames v rest r d hk hv hvr]

theorem update_loop_err (usernames : List String) :
    ∀ (l : List String) (d : Dict),
      (∃ u ∈ l, (dictLookup d (Cell.str u)).isSome = true ∧
        2 < usernames.count u) →
      ∃ e, update_loop usernames d l = .error e := by
  intro l
  induction l with
  | nil => intro d ⟨u, hu, _⟩; exact absurd hu (List.not_mem_nil u)
  | cons v rest ih =>
      intro d ⟨u, hu, hsome, hcnt⟩
      rcases List.mem_cons.mp hu with h | h
      · subst h
        cases hv : dictLookup d (Cell.str u) with
        | none => rw [hv] at hsome; simp at hsome
        | some r =>
            refine ⟨"Invalid student attendance with username: " ++ u, ?_⟩
            simp [update_loop, update_step, hv, hcnt]
      · cases hstep : update_step usernames d v with
        | error e => exact ⟨e, by simp [update_loop, hstep]⟩
        | ok d2 =>
            have hsome2 : (dictLookup d2 (Cell.str u)).isSome = true := by
              rw [update_step_some usernames d d2 v hstep (Cell.str u)]
              exact hsome
            obtain ⟨e, he⟩ := ih d2 ⟨u, h, hsome2, hcnt⟩
            exact ⟨e, by simp [update_loop, hstep, he]⟩

theorem update_loop_ok_counts (usernames : List String) (l : List String)
    (d d' : Dict) (h : update_loop usernames d l = .ok d') :
    ∀ u ∈ l, (dictLookup d (Cell.str u)).isSome = true →
      usernames.count u ≤ 2 := by
  intro u hu hsome
  by_contra hcnt
  obtain ⟨e, he⟩ := update_loop_err usernames l d
    ⟨u, hu, hsome, Nat.lt_of_not_le hcnt⟩
  rw [h] at he
  cases he

theorem updateIndex_ok (usernames : List String) (d : Dict)
    (hk : keysNodup d)
    (hcond : ∀ u, (dictLookup d (Cell.str u)).isSome = true →
      usernames.count u ≤ 2) :
    updateIndex usernames d =
      .ok (d.map (markEntry usernames usernames.dedup)) :=
  update_loop_ok usernames usernames.dedup d usernames.nodup_dedup hk
    (fun u _ hsome => hcond u hsome)

theorem newScore_idem (s : Int) (m : Nat) (hm : m ≤ 2) :
    newScore (newScore s m) m = newScore s m := by
  unfold newScore MAX_SCORE
  by_cases h1 : s < 2
  · rw [if_pos h1]
    by_cases h2 : (m : Int) < 2
    · rw [if_pos h2]
    · rw [if_neg h2]
      omega
  · rw [if_neg h1, if_neg (by omega : ¬ ((2 : Int) < 2))]

theorem markEntry_idem (usernames l : List String)
    (hall : ∀ u, usernames.count u ≤ 2) (p : Cell × StudentAttendance) :
    markEntry usernames l (markEntry usernames l p) =
      markEntry usernames l p := by
  obtain ⟨k, r⟩ := p
  cases k with
  | empty => rfl
  | num n => rfl
  | str u =>
      by_cases hu : u ∈ l
      · simp [markEntry, hu, newScore_idem r.score (usernames.count u) (hall u)]
      · simp [markEntry, hu]

theorem keysNodup_map_markEntry (usernames l : List String) (d : Dict)
    (hk : keysNodup d) : keysNodup (d.map (markEntry usernames l)) := by
  unfold keysNodup at hk ⊢
  rw [List.map_map]
  have : ∀ p ∈ d, ((fun p => p.1) ∘ markEntry usernames l) p =
      (fun p : Cell × StudentAttendance => p.1) p := by
    intro p _
    exact markEntry_fst usernames l p
  rw [List.map_congr_left this]
  exact hk

/-- C1: for a username `u` in the roster index with multiplicity
`m = usernames.count u`, `1 ≤ m ≤ 2`, a completing reconciliation
replaces `u`'s score by exactly `m` when the old score is below
`MAX_SCORE`, and leaves it at `MAX_SCORE` when the old score equals
`MAX_SCORE`. -/
theorem c1_score_replaced_by_multiplicity (usernames : List String)
    (d : Dict) (u : String) (r : StudentAttendance)
    (hk : keysNodup d)
    (hall : ∀ v, usernames.count v ≤ 2)
    (hm : 1 ≤ usernames.count u)
    (hr : dictLookup d (Cell.str u) = some r) :
    ∃ d', updateIndex usernames d = .ok d' ∧
      (r.score < MAX_SCORE →
        dictLookup d' (Cell.str u) =
          some ⟨Cell.str u, r.sid, (usernames.count u : Int)⟩) ∧
      (r.score = MAX_SCORE →
        dictLookup d' (Cell.str u) =
          some ⟨Cell.str u, r.sid, MAX_SCORE⟩) := by
  have hok := updateIndex_ok usernames d hk (fun v _ => hall v)
  refine ⟨_, hok, ?_, ?_⟩
  all_goals
    have hu : u ∈ usernames := by
      by_contra h
      rw [List.count_eq_zero.mpr h] at hm
      omega
    have hud : u ∈ usernames.dedup := List.mem_dedup.mpr hu
    rw [dictLookup_map_markEntry, hr]
    intro hs
    simp only [Option.map_some', markEntry, hud, if_pos, newScore]
  · rw [if_pos hs]
  · rw [if_neg (by rw [hs]; omega : ¬ (r.score < MAX_SCORE))]

/-- Closed witness for C1 at a concrete roster and token list. -/
theorem c1_witness :
    ∃ d', updateIndex ["#alice", "#alice"]
        [(Cell.str "#alice",
          ⟨Cell.str "#alice", Cell.num 100, 0⟩)] = .ok d' ∧
      ((0 : Int) < MAX_SCORE →
        dictLookup d' (Cell.str "#alice") =
          some ⟨Cell.str "#alice", Cell.num 100,
            ((["#alice", "#alice"].count "#alice" : Nat) : Int)⟩) ∧
      ((0 : Int) = MAX_SCORE →
        dictLookup d' (Cell.str "#alice") =
          some ⟨Cell.str "#alice", Cell.num 100, MAX_SCORE⟩) :=
  c1_score_replaced_by_multiplicity ["#alice", "#alice"]
    [(Cell.str "#alice", ⟨Cell.str "#alice", Cell.num 100, 0⟩)]
    "#alice" ⟨Cell.str "#alice", Cell.num 100, 0⟩
    (by decide)
    (fun v => le_trans (List.count_le_length v ["#alice", "#alice"])
      (by decide))
    (by decide) (by decide)

/-- C5: a token username absent from the roster index is skipped: the
run completes, no record is created for it, the key set is unchanged,
and the result equals the one obtained with that username's tokens
removed. -/
theorem c5_unknown_username_skipped (usernames : List String) (d : Dict)
    (u : String)
    (hmem : u ∈ usernames)
    (hnone : dictLookup d (Cell.str u) = none)
    (hk : keysNodup d)
    (hcnt : usernames.count u ≤ 2)
    (hall : ∀ v, (dictLookup d (Cell.str v)).isSome = true →
      usernames.count v ≤ 2) :
    ∃ d', updateIndex usernames d = .ok d' ∧
      dictLookup d' (Cell.str u) = none ∧
      d'.map (fun p => p.1) = d.map (fun p => p.1) ∧
      updateIndex (usernames.filter (fun v => v != u)) d = .ok d' := by
  have hok := updateIndex_ok usernames d hk hall
  refine ⟨_, hok, ?_, ?_, ?_⟩
  · rw [dictLookup_map_markEntry, hnone]
    rfl
  · rw [List.map_map]
    apply List.map_congr_left
    intro p _
    exact markEntry_fst usernames usernames.dedup p
  · have hall' : ∀ v,
        (dictLookup d (Cell.str v)).isSome = true →
        (usernames.filter (fun v => v != u)).count v ≤ 2 := by
      intro v hv
      exact le_trans
        ((List.filter_sublist usernames).count_le v) (hall v hv)
    have hok' := updateIndex_ok (usernames.filter (fun v => v != u)) d hk
      hall'
    rw [hok']
    congr 1
    apply List.map_congr_left
    intro p hp
    apply markEntry_congr
    intro w hw
    have hwu : w ≠ u := by
      intro h
      subst h
      rw [dictLookup_eq_none_iff] at hnone
      exact hnone p hp hw
    constructor
    · rw [List.mem_dedup, List.mem_dedup, List.mem_filter]
      simp [bne_iff_ne, hwu]
    · exact List.count_filter (by simp [bne_iff_ne, hwu])

/-- Closed witness for C5: token `"#ghost"` is not in the roster. -/
theorem c5_witness :
    ∃ d', updateIndex ["#ghost"]
        [(Cell.str "#alice",
          ⟨Cell.str "#alice", Cell.num 100, 1⟩)] = .ok d' ∧
      dictLookup d' (Cell.str "#ghost") = none ∧
      d'.map (fun p => p.1) =
        [(Cell.str "#alice",
          (⟨Cell.str "#alice", Cell.num 100, 1⟩ :
            StudentAttendance))].map (fun p => p.1) ∧
      updateIndex (["#ghost"].filter (fun v => v != "#ghost"))
        [(Cell.str "#alice",
          ⟨Cell.str "#alice", Cell.num 100, 1⟩)] = .ok d' :=
  c5_unknown_username_skipped ["#ghost"]
    [(Cell.str "#alice", ⟨Cell.str "#alice", Cell.num 100, 1⟩)]
    "#ghost" (by decide) (by decide) (by decide) (by decide)
    (fun v _ => le_trans (List.count_le_length v ["#ghost"]) (by decide))

/-- C10: reconciliation is idempotent.  If a token list in which every
username occurs at most twice reconciles a roster index to `d'`, then
reconciling `d'` again with the same tokens succeeds and changes
nothing: the index and the returned record list are the same. -/
theorem c10_reconciliation_idempotent (usernames : List String)
    (d d' : Dict)
    (hk : keysNodup d)
    (hall : ∀ u, usernames.count u ≤ 2)
    (h : updateIndex usernames d = .ok d') :
    updateIndex usernames d' = .ok d' ∧
      update_attendance usernames d' = update_attendance usernames d := by
  have hok := updateIndex_ok usernames d hk (fun v _ => hall v)
  rw [h] at hok
  injection hok with hd'
  subst hd'
  have hk' := keysNodup_map_markEntry usernames usernames.dedup d hk
  have hok2 := updateIndex_ok usernames
    (d.map (markEntry usernames usernames.dedup)) hk' (fun v _ => hall v)
  have hmm : (d.map (markEntry usernames usernames.dedup)).map
      (markEntry usernames usernames.dedup) =
      d.map (markEntry usernames usernames.dedup) := by
    rw [List.map_map]
    apply List.map_congr_left
    intro p _
    exact markEntry_idem usernames usernames.dedup hall p
  rw [hmm] at hok2
  refine ⟨hok2, ?_⟩
  unfold update_attendance
  rw [hok2, h]

/-- Closed witness for C10: a double check-in reconciles `"#alice"` to
score 2, and a second identical run is a no-op. -/
theorem c10_witness :
    updateIndex ["#alice", "#alice"]
        [(Cell.str "#alice", ⟨Cell.str "#alice", Cell.num 100, 2⟩)] =
      .ok [(Cell.str "#alice", ⟨Cell.str "#alice", Cell.num 100, 2⟩)] ∧
      update_attendance ["#alice", "#alice"]
          [(Cell.str "#alice", ⟨Cell.str "#alice", Cell.num 100, 2⟩)] =
        update_attendance ["#alice", "#alice"]
          [(Cell.str "#alice", ⟨Cell.str "#alice", Cell.num 100, 0⟩)] :=
  c10_reconciliation_idempotent ["#alice", "#alice"]
    [(Cell.str "#alice", ⟨Cell.str "#alice", Cell.num 100, 0⟩)]
    [(Cell.str "#alice", ⟨Cell.str "#alice", Cell.num 100, 2⟩)]
    (by decide)
    (fun v => le_trans (List.count_le_length v ["#alice", "#alice"])
      (by decide))
    (by rfl)

/-! ### The attendance log reader (`_load_student_attendance`) -/

/-- Python `str.strip()`: drop leading and trailing whitespace. -/
def trimChars (s : String) : String :=
  String.mk (((s.toList.dropWhile Char.isWhitespace).reverse.dropWhile
    Char.isWhitespace).reverse)

/-- Python `s.startswith(p)`. -/
def strStartsWith (p s : String) : Bool := p.toList.isPrefixOf s.toList

/-- Split a character list at the first comma, if any. -/
def splitFirstComma : List Char → Option (List Char × List Char)
  | [] => none
  | c :: cs =>
      if c = ',' then some ([], cs)
      else (splitFirstComma cs).map (fun p => (c :: p.1, p.2))

/-- Python `line.split(",", 1)`: at most two fields, split at the first
comma only; the second field keeps any later commas. -/
def splitOnceAtComma (line : String) : List String :=
  match splitFirstComma line.toList with
  | none => [line]
  | some (bf, af) => [String.mk bf, String.mk af]

/-- The token extracted from one line of the attendance file:
`next(filter(lambda x: x.startswith("#"), line.split(",", 1))).strip()`;
`none` models the `StopIteration` parse failure of `next`. -/
def extractUsername (line : String) : Option String :=
  ((splitOnceAtComma line).find? (fun f => strStartsWith "#" f)).map
    trimChars

/-- Function `_load_student_attendance` applied to the file's lines: one token
per line, first failing line aborts the whole read. -/
def load_student_attendance : List String → Except String (List String)
  | [] => .ok []
  | line :: rest =>
      match extractUsername line with
      | none => .error "ERROR >>> Unable to parse student attendance file!"
      | some u =>
          match load_student_attendance rest with
          | .error e => .error e
          | .ok us => .ok (u :: us)

/-- Full split at every comma (character level). -/
def splitAllCommas : List Char → List (List Char)
  | [] => [[]]
  | c :: cs =>
      if c = ',' then [] :: splitAllCommas cs
      else
        match splitAllCommas cs with
        | [] => [[c]]
        | f :: r => (c :: f) :: r

/-- Modelled from the spec wording of the claim: the comma-delimited
fields of a line, splitting at every comma. -/
def commaFields (line : String) : List String :=
  (splitAllCommas line.toList).map String.mk

/-- Modelled from the spec wording of the claim: the first
comma-delimited field of the line that begins with a hash sign. -/
def specFirstHashField (line : String) : Option String :=
  (commaFields line).find? (fun f => strStartsWith "#" f)

/-- C8, counterexample: the line `"a,b,#c"` has `"#c"` as its first
comma-delimited field beginning with a hash, yet the reader fails the
line, because the code splits at the first comma only and neither
`"a"` nor `"b,#c"` starts with a hash. -/
theorem c8_counterexample :
    load_student_attendance ["a,b,#c"] =
      .error "ERROR >>> Unable to parse student attendance file!" ∧
    specFirstHashField "a,b,#c" = some "#c" := by
  exact ⟨rfl, rfl⟩

/-- C8 as amended: the reader yields one token per line in file order
(duplicates preserved); each token is the first of the at-most-two
fields obtained by splitting the line at its first comma that begins
with a hash, with surrounding whitespace then stripped; a line with no
such field makes the whole read fail. -/
theorem c8_tokens_by_line (lines : List String) :
    (∀ toks, load_student_attendance lines = .ok toks →
      toks.length = lines.length ∧
      ∀ i, i < lines.length →
        ∃ f, (splitOnceAtComma (lines.getD i "")).find?
            (fun x => strStartsWith "#" x) = some f ∧
          toks.getD i "" = trimChars f) ∧
    ((∃ line ∈ lines, extractUsername line = none) →
      ∃ e, load_student_attendance lines = .error e) := by
  induction lines with
  | nil =>
      constructor
      · intro toks h
        cases h
        exact ⟨rfl, fun i hi => absurd hi (by simp)⟩
      · rintro ⟨line, hline, -⟩
        exact absurd hline (List.not_mem_nil _)
  | cons line rest ih =>
      constructor
      · intro toks h
        unfold load_student_attendance at h
        cases hx : extractUsername line with
        | none => rw [hx] at h; cases h
        | some u =>
            rw [hx] at h
            cases hr : load_student_attendance rest with
            | error e => rw [hr] at h; cases h
            | ok us =>
                rw [hr] at h
                injection h with h'
                subst h'
                obtain ⟨hlen, hidx⟩ := ih.1 us hr
                refine ⟨by simp [hlen], ?_⟩
                intro i hi
                cases i with
                | zero =>
                    unfold extractUsername at hx
                    cases hf : (splitOnceAtComma line).find?
                        (fun f => strStartsWith "#" f) with
                    | none => rw [hf] at hx; cases hx
                    | some f =>
                        rw [hf] at hx
                        injection hx with hx'
                        exact ⟨f, by simpa using hf, by simp [← hx']⟩
                | succ n =>
                    have hn : n < rest.length := by simpa using hi
                    obtain ⟨f, hf1, hf2⟩ := hidx n hn
                    exact ⟨f, by simpa using hf1, by simpa using hf2⟩
      · rintro ⟨l0, hl0, hnone⟩
        rcases List.mem_cons.mp hl0 with h | h
        · subst h
          exact ⟨_, by unfold load_student_attendance; rw [hnone]⟩
        · cases hx : extractUsername line with
          | none =>
              exact ⟨_, by unfold load_student_attendance; rw [hx]⟩
          | some u =>
              obtain ⟨e, he⟩ := ih.2 ⟨l0, h, hnone⟩
              exact ⟨e, by unfold load_student_attendance; rw [hx, he]⟩

/-- Closed witness for C8 as amended, at the one-line file `"x,#bob"`. -/
theorem c8_witness :
    ∃ f, (splitOnceAtComma ((["x,#bob"] : List String).getD 0 "")).find?
        (fun x => strStartsWith "#" x) = some f ∧
      (["#bob"] : List String).getD 0 "" = trimChars f :=
  ((c8_tokens_by_line ["x,#bob"]).1 ["#bob"] (by rfl)).2 0 (by decide)

/-! ### The roster store adapter: loading (`_load_tutorial_list`) -/

/-- Resolved header columns.  `none` models a Python variable that was
never assigned; reading it raises `NameError`. -/
structure HeaderCols where
  sid_col : Option Nat
  username_col : Option Nat
  score_col : Option Nat
deriving DecidableEq, Repr

/-- A worksheet: the first (header) row and the data rows, each a list
of cells.  Cells are addressed with 1-based column indices as in
openpyxl. -/
structure Sheet where
  header : List Cell
  rows : List (List Cell)
deriving DecidableEq, Repr

/-- One-based cell read; absent cells read as empty (`None`). -/
def cellAt : List Cell → Nat → Cell
  | _, 0 => Cell.empty
  | [], _ => Cell.empty
  | c :: _, 1 => c
  | _ :: t, n + 2 => cellAt t (n + 1)

/-- One step of the header classification loop shared by the load and
the save pass: `col_str == "OrgDefinedId"`, `elif == "Username"`,
`elif col_str.startswith("Tutorial")`, `else raise`.  An empty or
numeric header cell reaches the `startswith` call and raises
(`AttributeError`). -/
def classifyCell (c : Cell) (i : Nat) (st : HeaderCols) :
    Except String HeaderCols :=
  if c = Cell.str "OrgDefinedId" then .ok { st with sid_col := some i }
  else if c = Cell.str "Username" then
    .ok { st with username_col := some i }
  else
    match c with
    | Cell.str s =>
        if strStartsWith "Tutorial" s then
          .ok { st with score_col := some i }
        else .error "Undefined column name"
    | _ => .error "AttributeError: no attribute startswith"

/-- The `for i in range(1, 4)` header scan over the first three
columns. -/
def resolveColumns (sheet : Sheet) : Except String HeaderCols :=
  match classifyCell (cellAt sheet.header 1) 1 ⟨none, none, none⟩ with
  | .error e => .error e
  | .ok st1 =>
      match classifyCell (cellAt sheet.header 2) 2 st1 with
      | .error e => .error e
      | .ok st2 => classifyCell (cellAt sheet.header 3) 3 st2

/-- Read a cell through a column variable; an unassigned variable is a
`NameError`. -/
def readCol (col : Option Nat) (row : List Cell) : Except String Cell :=
  match col with
  | some i => .ok (cellAt row i)
  | none => .error "NameError: column variable is not defined"

/-- Python `not all(col.value is None for col in row)`. -/
def rowNonEmpty (row : List Cell) : Bool :=
  row.any (fun c => decide (c ≠ Cell.empty))

/-- The `num_rows` count of non-empty rows; the worksheet iteration
includes the header row. -/
def numRows (sheet : Sheet) : Nat :=
  (sheet.header :: sheet.rows).countP rowNonEmpty

/-- The data rows visited by `for row in range(2, num_rows + 1)`. -/
def dataRows (sheet : Sheet) : List (List Cell) :=
  sheet.rows.take (numRows sheet - 1)

/-- Build the `StudentAttendance` record for one data row (`key` is the
already-read username cell).  In overwrite mode a string score cell
raises (`TypeError` on `curr_score > 0`); a positive numeric score is
carried forward clamped at `MAX_SCORE`; anything else resets to 0. -/
def rowRecord (o : Bool) (cols : HeaderCols) (key : Cell)
    (row : List Cell) : Except String StudentAttendance :=
  match readCol cols.score_col row with
  | .error e => .error e
  | .ok curr =>
      match o, curr with
      | true, Cell.str _ => .error "TypeError: unsupported comparison"
      | true, Cell.num n =>
          match readCol cols.sid_col row with
          | .error e => .error e
          | .ok sid =>
              .ok (if 0 < n then
                  ⟨key, sid, if n ≤ MAX_SCORE then n else MAX_SCORE⟩
                else ⟨key, sid, 0⟩)
      | true, Cell.empty =>
          match readCol cols.sid_col row with
          | .error e => .error e
          | .ok sid => .ok ⟨key, sid, 0⟩
      | false, _ =>
          match readCol cols.sid_col row with
          | .error e => .error e
          | .ok sid => .ok ⟨key, sid, 0⟩

/-- Process one data row: read the username key, fail on a duplicate,
build the record and store it. -/
def loadRow (o : Bool) (cols : HeaderCols) (d : Dict) (row : List Cell) :
    Except String Dict :=
  match readCol cols.username_col row with
  | .error e => .error e
  | .ok key =>
      if (dictLookup d key).isSome then .error "Duplicate username found"
      else
        match rowRecord o cols key row with
        | .error e => .error e
        | .ok r => .ok (dictInsert d key r)

/-- The `for row in range(2, num_rows + 1)` dictionary-building loop. -/
def load_rows (o : Bool) (cols : HeaderCols) :
    Dict → List (List Cell) → Except String Dict
  | d, [] => .ok d
  | d, row :: rest =>
      match loadRow o cols d row with
      | .error e => .error e
      | .ok d' => load_rows o cols d' rest

/-- Function `_load_tutorial_list`: resolve the header columns, then build the
username-keyed dictionary from the data rows. -/
def load_tutorial_list (o : Bool) (sheet : Sheet) : Except String Dict :=
  match resolveColumns sheet with
  | .error e => .error e
  | .ok cols => load_rows o cols [] (dataRows sheet)

/-- The loaded score as a function of the mode and the raw score cell:
in overwrite mode a present, positive score is clamped to
`min raw MAX_SCORE`, in every other case the score is 0. -/
def scoreFromCell (o : Bool) (cs : Cell) : Int :=
  match o, cs with
  | true, Cell.num n => if 0 < n then min n MAX_SCORE else 0
  | _, _ => 0

theorem scoreFromCell_false (cs : Cell) : scoreFromCell false cs = 0 := by
  cases cs <;> rfl

theorem loadRow_ok (o : Bool) (cols : HeaderCols) (d : Dict)
    (row : List Cell) (d' : Dict) (h : loadRow o cols d row = .ok d') :
    ∃ key r, readCol cols.username_col row = .ok key ∧
      dictLookup d key = none ∧
      rowRecord o cols key row = .ok r ∧
      d' = dictInsert d key r := by
  unfold loadRow at h
  split at h
  · cases h
  · rename_i key hkey
    split at h
    · cases h
    · rename_i hdup
      split at h
      · cases h
      · rename_i r hrec
        injection h with h'
        exact ⟨key, r, hkey,
          Option.not_isSome_iff_eq_none.mp hdup, hrec, h'.symm⟩

theorem load_rows_mono (o : Bool) (cols : HeaderCols) :
    ∀ (rows : List (List Cell)) (d0 d : Dict),
      load_rows o cols d0 rows = .ok d → ∀ p ∈ d0, p ∈ d := by
  intro rows
  induction rows with
  | nil =>
      intro d0 d h p hp
      cases h
      exact hp
  | cons row rest ih =>
      intro d0 d h p hp
      unfold load_rows at h
      split at h
      · cases h
      · rename_i d1 h1
        obtain ⟨key, r, -, hnone, -, hd1⟩ := loadRow_ok o cols d0 row d1 h1
        subst hd1
        exact ih _ d h p (by
          rw [dictInsert_eq_append d0 key r hnone]
          exact List.mem_append_left _ hp)

theorem load_rows_forward (o : Bool) (cols : HeaderCols) :
    ∀ (rows : List (List Cell)) (d0 d : Dict),
      load_rows o cols d0 rows = .ok d → ∀ row ∈ rows,
        ∃ key r, readCol cols.username_col row = .ok key ∧
          rowRecord o cols key row = .ok r ∧ (key, r) ∈ d := by
  intro rows
  induction rows with
  | nil =>
      intro d0 d h row hrow
      exact absurd hrow (List.not_mem_nil _)
  | cons row0 rest ih =>
      intro d0 d h row hrow
      unfold load_rows at h
      split at h
      · cases h
      · rename_i d1 h1
        rcases List.mem_cons.mp hrow with heq | hmem
        · subst heq
          obtain ⟨key, r, hkey, hnone, hrec, hd1⟩ :=
            loadRow_ok o cols d0 row d1 h1
          refine ⟨key, r, hkey, hrec, ?_⟩
          apply load_rows_mono o cols rest d1 d h
          rw [hd1, dictInsert_eq_append d0 key r hnone]
          exact List.mem_append_right _ (List.mem_singleton.mpr rfl)
        · exact ih d1 d h row hmem

theorem load_rows_backward (o : Bool) (cols : HeaderCols) :
    ∀ (rows : List (List Cell)) (d0 d : Dict),
      load_rows o cols d0 rows = .ok d → ∀ p ∈ d,
        p ∈ d0 ∨ ∃ row ∈ rows,
          readCol cols.username_col row = .ok p.1 ∧
          rowRecord o cols p.1 row = .ok p.2 := by
  intro rows
  induction rows with
  | nil =>
      intro d0 d h p hp
      cases h
      exact Or.inl hp
  | cons row0 rest ih =>
      intro d0 d h p hp
      unfold load_rows at h
      split at h
      · cases h
      · rename_i d1 h1
        obtain ⟨key, r, hkey, hnone, hrec, hd1⟩ :=
          loadRow_ok o cols d0 row0 d1 h1
        rcases ih d1 d h p hp with hin | ⟨row, hrow, h2, h3⟩
        · rw [hd1, dictInsert_eq_append d0 key r hnone] at hin
          rcases List.mem_append.mp hin with hin0 | hin1
          · exact Or.inl hin0
          · right
            refine ⟨row0, List.mem_cons_self _ _, ?_, ?_⟩
            · rw [List.mem_singleton.mp hin1]
              exact hkey
            · rw [List.mem_singleton.mp hin1]
              exact hrec
        · exact Or.inr ⟨row, List.mem_cons_of_mem _ hrow, h2, h3⟩

theorem load_rows_keysNodup (o : Bool) (cols : HeaderCols) :
    ∀ (rows : List (List Cell)) (d0 d : Dict), keysNodup d0 →
      load_rows o cols d0 rows = .ok d → keysNodup d := by
  intro rows
  induction rows with
  | nil =>
      intro d0 d h0 h
      cases h
      exact h0
  | cons row rest ih =>
      intro d0 d h0 h
      unfold load_rows at h
      split at h
      · cases h
      · rename_i d1 h1
        obtain ⟨key, r, -, hnone, -, hd1⟩ := loadRow_ok o cols d0 row d1 h1
        apply ih d1 d ?_ h
        rw [hd1, dictInsert_eq_append d0 key r hnone]
        unfold keysNodup at h0 ⊢
        rw [List.map_append, List.nodup_append]
        refine ⟨h0, List.nodup_singleton _, ?_⟩
        intro a ha hb
        simp only [List.map_cons, List.map_nil, List.mem_singleton] at hb
        subst hb
        obtain ⟨p, hp, hpk⟩ := List.mem_map.mp ha
        rw [dictLookup_eq_none_iff] at hnone
        exact hnone p hp hpk

theorem rowRecord_spec (o : Bool) (cols : HeaderCols) (key : Cell)
    (row : List Cell) (r : StudentAttendance)
    (h : rowRecord o cols key row = .ok r) :
    r.username = key ∧
    (∃ sid, readCol cols.sid_col row = .ok sid ∧ r.sid = sid) ∧
    ∃ cs, readCol cols.score_col row = .ok cs ∧
      r.score = scoreFromCell o cs := by
  unfold rowRecord at h
  split at h
  · cases h
  · rename_i curr hcurr
    split at h
    · cases h
    · rename_i n
      split at h
      · cases h
      · rename_i sid hsid
        injection h with h'
        subst h'
        by_cases hn : 0 < n
        · rw [if_pos hn]
          exact ⟨rfl, ⟨sid, hsid, rfl⟩,
            ⟨Cell.num n, hcurr, by
              simp [scoreFromCell, if_pos hn, min_def]⟩⟩
        · rw [if_neg hn]
          exact ⟨rfl, ⟨sid, hsid, rfl⟩,
            ⟨Cell.num n, hcurr, by simp [scoreFromCell, if_neg hn]⟩⟩
    · split at h
      · cases h
      · rename_i sid hsid
        injection h with h'
        subst h'
        exact ⟨rfl, ⟨sid, hsid, rfl⟩, ⟨Cell.empty, hcurr, rfl⟩⟩
    · rename_i hcase
      split at h
      · cases h
      · rename_i sid hsid
        injection h with h'
        subst h'
        exact ⟨rfl, ⟨sid, hsid, rfl⟩,
          ⟨curr, hcurr, (scoreFromCell_false curr).symm⟩⟩

theorem load_ok_elim (o : Bool) (sheet : Sheet) (d : Dict)
    (h : load_tutorial_list o sheet = .ok d) :
    ∃ cols, resolveColumns sheet = .ok cols ∧
      load_rows o cols [] (dataRows sheet) = .ok d := by
  unfold load_tutorial_list at h
  split at h
  · cases h
  · rename_i cols hcols
    exact ⟨cols, hcols, h⟩

theorem load_keysNodup (o : Bool) (sheet : Sheet) (d : Dict)
    (h : load_tutorial_list o sheet = .ok d) : keysNodup d := by
  obtain ⟨cols, -, hrows⟩ := load_ok_elim o sheet d h
  exact load_rows_keysNodup o cols (dataRows sheet) [] d
    (by simp [keysNodup]) hrows

theorem scoreFromCell_range (o : Bool) (cs : Cell) :
    0 ≤ scoreFromCell o cs ∧ scoreFromCell o cs ≤ MAX_SCORE := by
  have h02 : (0 : Int) ≤ MAX_SCORE := by unfold MAX_SCORE; omega
  cases o with
  | false =>
      rw [scoreFromCell_false]
      exact ⟨le_refl 0, h02⟩
  | true =>
      cases cs with
      | empty => exact ⟨le_refl 0, h02⟩
      | str s => exact ⟨le_refl 0, h02⟩
      | num n =>
          show 0 ≤ (if 0 < n then min n MAX_SCORE else 0) ∧
            (if 0 < n then min n MAX_SCORE else 0) ≤ MAX_SCORE
          by_cases hn : 0 < n
          · rw [if_pos hn]
            exact ⟨le_min hn.le h02, min_le_right _ _⟩
          · rw [if_neg hn]
            exact ⟨le_refl 0, h02⟩

theorem load_score_range (o : Bool) (sheet : Sheet) (d : Dict)
    (h : load_tutorial_list o sheet = .ok d) :
    ∀ p ∈ d, 0 ≤ p.2.score ∧ p.2.score ≤ MAX_SCORE := by
  intro p hp
  obtain ⟨cols, -, hrows⟩ := load_ok_elim o sheet d h
  rcases load_rows_backward o cols (dataRows sheet) [] d hrows p hp with
    hin | ⟨row, -, -, hrec⟩
  · exact absurd hin (List.not_mem_nil _)
  · obtain ⟨-, -, cs, -, hscore⟩ :=
      rowRecord_spec o cols p.1 row p.2 hrec
    rw [hscore]
    exact scoreFromCell_range o cs

/-- C6: for every data row read during a successful load, the
constructed record's score is `min raw MAX_SCORE` when overwrite mode
is on and the raw score cell holds a positive number, and 0 in every
other case (mode off, score cell empty, or score not positive). -/
theorem c6_load_score_policy (o : Bool) (sheet : Sheet)
    (cols : HeaderCols) (d : Dict) (row : List Cell)
    (hres : resolveColumns sheet = .ok cols)
    (hload : load_tutorial_list o sheet = .ok d)
    (hrow : row ∈ dataRows sheet) :
    ∃ key r, readCol cols.username_col row = .ok key ∧ (key, r) ∈ d ∧
      r.username = key ∧
      ∃ cs, readCol cols.score_col row = .ok cs ∧
        r.score = scoreFromCell o cs := by
  obtain ⟨cols', hcols', hrows⟩ := load_ok_elim o sheet d hload
  rw [hres] at hcols'
  injection hcols' with hce
  subst hce
  obtain ⟨key, r, hkey, hrec, hmem⟩ :=
    load_rows_forward o cols (dataRows sheet) [] d hrows row hrow
  obtain ⟨hu, -, cs, hcs, hscore⟩ :=
    rowRecord_spec o cols key row r hrec
  exact ⟨key, r, hkey, hmem, hu, cs, hcs, hscore⟩

/-- Closed witness for C6: a stored score of 5 is clamped to 2. -/
theorem c6_witness :
    ∃ key r, readCol (some 2) [Cell.num 100, Cell.str "#alice", Cell.num 5]
        = .ok key ∧
      (key, r) ∈
        [(Cell.str "#alice",
          (⟨Cell.str "#alice", Cell.num 100, 2⟩ : StudentAttendance))] ∧
      r.username = key ∧
      ∃ cs, readCol (some 3) [Cell.num 100, Cell.str "#alice", Cell.num 5]
          = .ok cs ∧
        r.score = scoreFromCell true cs :=
  c6_load_score_policy true
    ⟨[Cell.str "OrgDefinedId", Cell.str "Username", Cell.str "Tutorial 6"],
     [[Cell.num 100, Cell.str "#alice", Cell.num 5]]⟩
    ⟨some 1, some 2, some 3⟩
    [(Cell.str "#alice", ⟨Cell.str "#alice", Cell.num 100, 2⟩)]
    [Cell.num 100, Cell.str "#alice", Cell.num 5]
    (by rfl) (by rfl) (by decide)

/-- C2: every score in the record sequence returned by a reconciliation
of a loaded roster with an accepted token list lies in
`[0, MAX_SCORE]`. -/
theorem c2_scores_in_range (o : Bool) (sheet : Sheet)
    (usernames : List String) (d : Dict) (l : List StudentAttendance)
    (hload : load_tutorial_list o sheet = .ok d)
    (hall : ∀ u, usernames.count u ≤ 2)
    (hupd : update_attendance usernames d = .ok l) :
    ∀ r ∈ l, 0 ≤ r.score ∧ r.score ≤ MAX_SCORE := by
  have hk := load_keysNodup o sheet d hload
  have hrange := load_score_range o sheet d hload
  have hok := updateIndex_ok usernames d hk (fun v _ => hall v)
  unfold update_attendance at hupd
  rw [hok] at hupd
  injection hupd with hl
  subst hl
  intro r hr
  rw [List.map_map] at hr
  obtain ⟨p, hp, hpr⟩ := List.mem_map.mp hr
  subst hpr
  obtain ⟨hp0, hp2⟩ := hrange p hp
  obtain ⟨k, pr⟩ := p
  cases k with
  | empty => exact ⟨hp0, hp2⟩
  | num n => exact ⟨hp0, hp2⟩
  | str u =>
      by_cases hu : u ∈ usernames.dedup
      · have hcnt := hall u
        have hval : (((fun p : Cell × StudentAttendance => p.2) ∘
            markEntry usernames usernames.dedup)
              (Cell.str u, pr)).score =
            newScore pr.score (usernames.count u) := by
          simp [Function.comp, markEntry, hu]
        rw [hval]
        unfold newScore MAX_SCORE
        unfold MAX_SCORE at hp2
        split
        · constructor <;> omega
        · constructor <;> omega
      · have hval : ((fun p : Cell × StudentAttendance => p.2) ∘
            markEntry usernames usernames.dedup) (Cell.str u, pr) = pr := by
          simp [Function.comp, markEntry, hu]
        rw [hval]
        exact ⟨hp0, hp2⟩

/-- Closed witness for C2 at a concrete roster and token list. -/
theorem c2_witness :
    0 ≤ (⟨Cell.str "#alice", Cell.num 100, 2⟩ : StudentAttendance).score ∧
      (⟨Cell.str "#alice", Cell.num 100, 2⟩ : StudentAttendance).score ≤
        MAX_SCORE :=
  c2_scores_in_range true
    ⟨[Cell.str "OrgDefinedId", Cell.str "Username", Cell.str "Tutorial 6"],
     [[Cell.num 100, Cell.str "#alice", Cell.num 5]]⟩
    ["#alice"]
    [(Cell.str "#alice", ⟨Cell.str "#alice", Cell.num 100, 2⟩)]
    [⟨Cell.str "#alice", Cell.num 100, 2⟩]
    (by rfl)
    (fun u => le_trans (List.count_le_length u ["#alice"]) (by decide))
    (by rfl)
    ⟨Cell.str "#alice", Cell.num 100, 2⟩
    (by decide)

/-- A header cell value accepted by the classification loop. -/
def recognizedHeader (c : Cell) : Prop :=
  c = Cell.str "OrgDefinedId" ∨ c = Cell.str "Username" ∨
    ∃ s, c = Cell.str s ∧ strStartsWith "Tutorial" s = true

theorem classify_ok_iff (c : Cell) (i : Nat) (st : HeaderCols) :
    (∃ st', classifyCell c i st = .ok st') ↔ recognizedHeader c := by
  constructor
  · rintro ⟨st', h⟩
    unfold classifyCell at h
    split_ifs at h with h1 h2
    · exact Or.inl h1
    · exact Or.inr (Or.inl h2)
    · split at h
      · rename_i s
        split_ifs at h with h3
        exact Or.inr (Or.inr ⟨s, rfl, h3⟩)
      · cases h
  · intro hrec
    unfold classifyCell
    rcases hrec with h | h | ⟨s, hs, hstart⟩
    · subst h
      exact ⟨_, by rw [if_pos rfl]⟩
    · subst h
      exact ⟨_, by rw [if_neg (by decide), if_pos rfl]⟩
    · subst hs
      by_cases h1 : s = "OrgDefinedId"
      · subst h1
        exact absurd hstart (by decide)
      · by_cases h2 : s = "Username"
        · subst h2
          exact absurd hstart (by decide)
        · refine ⟨{ st with score_col := some i }, ?_⟩
          rw [if_neg (by simp [h1]), if_neg (by simp [h2])]
          simp [hstart]

/-- C7 as amended: the header scan of the load and save passes succeeds
exactly when every one of the first three header cells is recognized
(equal to `"OrgDefinedId"`, equal to `"Username"`, or a string starting
with `"Tutorial"`); it does not detect duplicated or missing labels. -/
theorem c7_header_scan (sheet : Sheet) :
    (∃ cols, resolveColumns sheet = .ok cols) ↔
      (recognizedHeader (cellAt sheet.header 1) ∧
       recognizedHeader (cellAt sheet.header 2) ∧
       recognizedHeader (cellAt sheet.header 3)) := by
  constructor
  · rintro ⟨cols, h⟩
    unfold resolveColumns at h
    split at h
    · cases h
    · rename_i st1 h1
      split at h
      · cases h
      · rename_i st2 h2
        exact ⟨(classify_ok_iff _ 1 _).mp ⟨st1, h1⟩,
          (classify_ok_iff _ 2 _).mp ⟨st2, h2⟩,
          (classify_ok_iff _ 3 _).mp ⟨cols, h⟩⟩
  · rintro ⟨h1, h2, h3⟩
    obtain ⟨st1, hst1⟩ :=
      (classify_ok_iff (cellAt sheet.header 1) 1 ⟨none, none, none⟩).mpr h1
    obtain ⟨st2, hst2⟩ :=
      (classify_ok_iff (cellAt sheet.header 2) 2 st1).mpr h2
    obtain ⟨st3, hst3⟩ :=
      (classify_ok_iff (cellAt sheet.header 3) 3 st2).mpr h3
    refine ⟨st3, ?_⟩
    unfold resolveColumns
    rw [hst1]
    show (match classifyCell (cellAt sheet.header 2) 2 st1 with
      | Except.error e => (Except.error e : Except String HeaderCols)
      | Except.ok st2 => classifyCell (cellAt sheet.header 3) 3 st2) =
      Except.ok st3
    rw [hst2]
    show classifyCell (cellAt sheet.header 3) 3 st2 = Except.ok st3
    exact hst3

/-- C7, counterexample: a sheet whose first three header cells all read
`"Username"` (so `"OrgDefinedId"` appears zero times) and that has no
data rows loads successfully, so the load pass does not require exactly
one cell of each kind. -/
theorem c7_counterexample :
    load_tutorial_list true
        ⟨[Cell.str "Username", Cell.str "Username", Cell.str "Username"],
          []⟩ = .ok [] ∧
      ([Cell.str "Username", Cell.str "Username",
        Cell.str "Username"].count (Cell.str "OrgDefinedId") = 0) :=
  ⟨rfl, by decide⟩

/-! ### The roster store adapter: saving (`_write_tutorial_list`) -/

/-- Total comparison used to model Python's stable ascending sort by
`sid`.  Python's `list.sort` would raise on incomparably typed ids; the
ids of one sheet are uniformly typed, and the comparison across cell
kinds is an arbitrary total extension. -/
def cellLe : Cell → Cell → Bool
  | Cell.empty, _ => true
  | Cell.num _, Cell.empty => false
  | Cell.num a, Cell.num b => decide (a ≤ b)
  | Cell.num _, Cell.str _ => true
  | Cell.str _, Cell.empty => false
  | Cell.str _, Cell.num _ => false
  | Cell.str a, Cell.str b => decide (a ≤ b)

/-- Stable insertion: a later record goes after every earlier record
with a smaller-or-equal id. -/
def insertSorted (s : StudentAttendance) :
    List StudentAttendance → List StudentAttendance
  | [] => [s]
  | t :: ts =>
      if cellLe t.sid s.sid then t :: insertSorted s ts else s :: t :: ts

/-- Python `students.sort(key=lambda x: x.sid)`: stable ascending. -/
def sortStudents (students : List StudentAttendance) :
    List StudentAttendance :=
  students.foldl (fun acc s => insertSorted s acc) []

/-- The written score cell:
`student.score if student.score > 0 else None`. -/
def scoreCell (s : Int) : Cell :=
  if 0 < s then Cell.num s else Cell.empty

/-- One-based cell write, padding the row with empty cells if needed. -/
def setCell : List Cell → Nat → Cell → List Cell
  | row, 0, _ => row
  | [], 1, v => [v]
  | _ :: t, 1, v => v :: t
  | [], n + 2, v => Cell.empty :: setCell [] (n + 1) v
  | c :: t, n + 2, v => c :: setCell t (n + 1) v

/-- Zero-based data-row read (`pos` = sheet row number minus 2). -/
def getRow : List (List Cell) → Nat → List Cell
  | [], _ => []
  | r :: _, 0 => r
  | _ :: t, p + 1 => getRow t p

/-- Zero-based data-row write, padding with empty rows if needed. -/
def setRow : List (List Cell) → Nat → List Cell → List (List Cell)
  | [], 0, r => [r]
  | [], p + 1, r => [] :: setRow [] p r
  | _ :: t, 0, r => r :: t
  | c :: t, p + 1, r => c :: setRow t p r

/-- Read a column variable in the write loop; an unassigned variable is
a `NameError`. -/
def colIdx : Option Nat → Except String Nat
  | some i => .ok i
  | none => .error "NameError: column variable is not defined"

/-- The `for row, student in enumerate(students, start=2)` write loop.
`pos` is the 0-based data-row index, so Python's `row` variable equals
`pos + 2`.  The returned `Option Nat` is the final value of that loop
variable — `none` when the loop body never ran and the variable was
never assigned. -/
def writeLoop (cols : HeaderCols) :
    List StudentAttendance → List (List Cell) → Nat →
    Except String (List (List Cell) × Option Nat)
  | [], rows, _ => .ok (rows, none)
  | s :: rest, rows, pos =>
      match colIdx cols.sid_col with
      | .error e => .error e
      | .ok a =>
          match colIdx cols.username_col with
          | .error e => .error e
          | .ok b =>
              match colIdx cols.score_col with
              | .error e => .error e
              | .ok c =>
                  match writeLoop cols rest
                      (setRow rows pos
                        (setCell (setCell (setCell (getRow rows pos)
                          a s.sid) b s.username) c (scoreCell s.score)))
                      (pos + 1) with
                  | .error e => .error e
                  | .ok (rows', last) =>
                      .ok (rows', some (last.getD (pos + 2)))

/-- Function `_write_tutorial_list`: sort by id, re-resolve the header columns,
overwrite the rows, and return `row - 1` — a `NameError` when the loop
never ran. -/
def write_tutorial_list (sheet : Sheet)
    (students : List StudentAttendance) : Except String (Sheet × Nat) :=
  match resolveColumns sheet with
  | .error e => .error e
  | .ok cols =>
      match writeLoop cols (sortStudents students) sheet.rows 0 with
      | .error e => .error e
      | .ok (rows', last) =>
          match last with
          | none => .error "NameError: name row is not defined"
          | some r => .ok (⟨sheet.header, rows'⟩, r - 1)

/-- Method `TakeAttendance.run`: load the attendance log, load the roster,
reconcile, write. -/
def run (o : Bool) (inputLines : List String) (sheet : Sheet) :
    Except String (Sheet × Nat) :=
  match load_student_attendance inputLines with
  | .error e => .error e
  | .ok usernames =>
      match load_tutorial_list o sheet with
      | .error e => .error e
      | .ok d =>
          match update_attendance usernames d with
          | .error e => .error e
          | .ok students => write_tutorial_list sheet students

theorem cellAt_setCell_self : ∀ (i : Nat) (row : List Cell) (v : Cell),
    1 ≤ i → cellAt (setCell row i v) i = v := by
  intro i
  induction i with
  | zero => intro row v h; omega
  | succ n ih =>
      intro row v h
      cases n with
      | zero => cases row <;> rfl
      | succ m =>
          cases row with
          | nil => exact ih [] v (by omega)
          | cons c t => exact ih t v (by omega)

theorem cellAt_setCell_ne : ∀ (i : Nat) (row : List Cell) (v : Cell)
    (j : Nat), j ≠ i → cellAt (setCell row i v) j = cellAt row j := by
  intro i
  induction i with
  | zero => intro row v j h; cases row <;> rfl
  | succ n ih =>
      intro row v j h
      cases n with
      | zero =>
          cases row with
          | nil =>
              cases j with
              | zero => rfl
              | succ m =>
                  cases m with
                  | zero => exact absurd rfl h
                  | succ k => rfl
          | cons c t =>
              cases j with
              | zero => rfl
              | succ m =>
                  cases m with
                  | zero => exact absurd rfl h
                  | succ k => rfl
      | succ m =>
          cases row with
          | nil =>
              cases j with
              | zero => rfl
              | succ p =>
                  cases p with
                  | zero => rfl
                  | succ k => exact ih [] v (k + 1) (by omega)
          | cons c t =>
              cases j with
              | zero => rfl
              | succ p =>
                  cases p with
                  | zero => rfl
                  | succ k => exact ih t v (k + 1) (by omega)

theorem getRow_setRow_self : ∀ (p : Nat) (rows : List (List Cell))
    (r : List Cell), getRow (setRow rows p r) p = r := by
  intro p
  induction p with
  | zero => intro rows r; cases rows <;> rfl
  | succ q ih =>
      intro rows r
      cases rows with
      | nil => exact ih [] r
      | cons c t => exact ih t r

theorem getRow_setRow_ne : ∀ (p : Nat) (rows : List (List Cell))
    (r : List Cell) (q : Nat), q ≠ p →
    getRow (setRow rows p r) q = getRow rows q := by
  intro p
  induction p with
  | zero =>
      intro rows r q h
      cases rows with
      | nil =>
          cases q with
          | zero => exact absurd rfl h
          | succ k => rfl
      | cons c t =>
          cases q with
          | zero => exact absurd rfl h
          | succ k => rfl
  | succ pq ih =>
      intro rows r q h
      cases rows with
      | nil =>
          cases q with
          | zero => rfl
          | succ k => exact ih [] r k (by omega)
      | cons c t =>
          cases q with
          | zero => rfl
          | succ k => exact ih t r k (by omega)

theorem setRow_length : ∀ (p : Nat) (rows : List (List Cell))
    (r : List Cell), p + 1 ≤ (setRow rows p r).length ∧
      rows.length ≤ (setRow rows p r).length := by
  intro p
  induction p with
  | zero => intro rows r; cases rows <;> simp [setRow]
  | succ q ih =>
      intro rows r
      cases rows with
      | nil =>
          have := ih [] r
          simp only [setRow, List.length_cons, List.length_nil] at this ⊢
          omega
      | cons c t =>
          have := ih t r
          simp only [setRow, List.length_cons] at this ⊢
          omega

theorem getRow_mem : ∀ (rows : List (List Cell)) (p : Nat),
    p < rows.length → getRow rows p ∈ rows := by
  intro rows
  induction rows with
  | nil => intro p h; simp at h
  | cons c t ih =>
      intro p h
      cases p with
      | zero => exact List.mem_cons_self _ _
      | succ q => exact List.mem_cons_of_mem _ (ih q (by simpa using h))

theorem colIdx_ok (x : Option Nat) (a : Nat) (h : colIdx x = .ok a) :
    x = some a := by
  cases x with
  | none => cases h
  | some i => cases h; rfl

theorem writeLoop_ok_cons (cols : HeaderCols) (s : StudentAttendance)
    (rest : List StudentAttendance) (rows : List (List Cell)) (pos : Nat)
    (rows' : List (List Cell)) (last : Option Nat)
    (h : writeLoop cols (s :: rest) rows pos = .ok (rows', last)) :
    ∃ a b c recLast,
      cols.sid_col = some a ∧ cols.username_col = some b ∧
      cols.score_col = some c ∧
      writeLoop cols rest
        (setRow rows pos
          (setCell (setCell (setCell (getRow rows pos) a s.sid)
            b s.username) c (scoreCell s.score))) (pos + 1) =
        .ok (rows', recLast) ∧
      last = some (recLast.getD (pos + 2)) := by
  unfold writeLoop at h
  split at h
  · cases h
  · rename_i a hA
    split at h
    · cases h
    · rename_i b hB
      split at h
      · cases h
      · rename_i c hC
        split at h
        · cases h
        · rename_i rows2 last2 hrec
          injection h with h2
          injection h2 with h3 h4
          subst h3
          subst h4
          exact ⟨a, b, c, last2, colIdx_ok _ _ hA, colIdx_ok _ _ hB,
            colIdx_ok _ _ hC, hrec, rfl⟩

theorem writeLoop_preserve (cols : HeaderCols) :
    ∀ (students : List StudentAttendance) (rows : List (List Cell))
      (pos : Nat) (rows' : List (List Cell)) (last : Option Nat),
      writeLoop cols students rows pos = .ok (rows', last) →
      ∀ q < pos, getRow rows' q = getRow rows q := by
  intro students
  induction students with
  | nil =>
      intro rows pos rows' last h q hq
      injection h with h2
      injection h2 with h3 h4
      subst h3
      rfl
  | cons s rest ih =>
      intro rows pos rows' last h q hq
      obtain ⟨a, b, c, rl, -, -, -, hrec, -⟩ :=
        writeLoop_ok_cons cols s rest rows pos rows' last h
      rw [ih _ (pos + 1) rows' rl hrec q (by omega),
        getRow_setRow_ne pos _ _ q (by omega)]

theorem writeLoop_len (cols : HeaderCols) :
    ∀ (students : List StudentAttendance) (rows : List (List Cell))
      (pos : Nat) (rows' : List (List Cell)) (last : Option Nat),
      writeLoop cols students rows pos = .ok (rows', last) →
      rows.length ≤ rows'.length := by
  intro students
  induction students with
  | nil =>
      intro rows pos rows' last h
      injection h with h2
      injection h2 with h3 h4
      subst h3
      exact le_refl _
  | cons s rest ih =>
      intro rows pos rows' last h
      obtain ⟨a, b, c, rl, -, -, -, hrec, -⟩ :=
        writeLoop_ok_cons cols s rest rows pos rows' last h
      exact le_trans (setRow_length pos rows _).2 (ih _ (pos + 1) rows' rl hrec)

theorem writeLoop_mem (cols : HeaderCols) (a b c : Nat)
    (h1a : 1 ≤ a) (h1b : 1 ≤ b) (h1c : 1 ≤ c)
    (hab : a ≠ b) (hac : a ≠ c) (hbc : b ≠ c)
    (ha : cols.sid_col = some a) (hb : cols.username_col = some b)
    (hc : cols.score_col = some c) :
    ∀ (students : List StudentAttendance) (rows : List (List Cell))
      (pos : Nat) (rows' : List (List Cell)) (last : Option Nat),
      writeLoop cols students rows pos = .ok (rows', last) →
      ∀ s ∈ students, ∃ row' ∈ rows',
        cellAt row' a = s.sid ∧ cellAt row' b = s.username ∧
        cellAt row' c = scoreCell s.score := by
  intro students
  induction students with
  | nil =>
      intro rows pos rows' last h s hs
      exact absurd hs (List.not_mem_nil _)
  | cons s0 rest ih =>
      intro rows pos rows' last h s hs
      obtain ⟨a', b', c', rl, ha', hb', hc', hrec, -⟩ :=
        writeLoop_ok_cons cols s0 rest rows pos rows' last h
      rw [ha] at ha'
      injection ha' with hae
      subst hae
      rw [hb] at hb'
      injection hb' with hbe
      subst hbe
      rw [hc] at hc'
      injection hc' with hce
      subst hce
      rcases List.mem_cons.mp hs with heq | hmem
      · subst heq
        have hrow : getRow rows' pos =
            setCell (setCell (setCell (getRow rows pos) a s.sid)
              b s.username) c (scoreCell s.score) := by
          rw [writeLoop_preserve cols rest _ (pos + 1) rows' rl hrec pos
            (by omega), getRow_setRow_self]
        have hlen : pos < rows'.length := by
          have hx := (setRow_length pos rows
            (setCell (setCell (setCell (getRow rows pos) a s.sid)
              b s.username) c (scoreCell s.score))).1
          have hy := writeLoop_len cols rest _ (pos + 1) rows' rl hrec
          omega
        refine ⟨getRow rows' pos, getRow_mem rows' pos hlen, ?_, ?_, ?_⟩
        · rw [hrow, cellAt_setCell_ne c _ _ a hac,
            cellAt_setCell_ne b _ _ a hab, cellAt_setCell_self a _ _ h1a]
        · rw [hrow, cellAt_setCell_ne c _ _ b hbc,
            cellAt_setCell_self b _ _ h1b]
        · rw [hrow, cellAt_setCell_self c _ _ h1c]
      · exact ih _ (pos + 1) rows' rl hrec s hmem

theorem write_ok_elim (sheet : Sheet) (students : List StudentAttendance)
    (sheet' : Sheet) (n : Nat)
    (h : write_tutorial_list sheet students = .ok (sheet', n)) :
    ∃ cols rows' lastn, resolveColumns sheet = .ok cols ∧
      writeLoop cols (sortStudents students) sheet.rows 0 =
        .ok (rows', some lastn) ∧
      sheet' = ⟨sheet.header, rows'⟩ ∧ n = lastn - 1 := by
  unfold write_tutorial_list at h
  split at h
  · cases h
  · rename_i cols hcols
    split at h
    · cases h
    · rename_i rows' last hloop
      split at h
      · cases h
      · rename_i r
        injection h with h2
        injection h2 with h3 h4
        subst h3
        subst h4
        exact ⟨cols, rows', r, hcols, hloop, rfl, rfl⟩

theorem mem_insertSorted (s x : StudentAttendance) :
    ∀ l, x ∈ insertSorted s l ↔ x = s ∨ x ∈ l := by
  intro l
  induction l with
  | nil => simp [insertSorted]
  | cons t ts ih =>
      unfold insertSorted
      split
      · simp only [List.mem_cons, ih]
        tauto
      · simp only [List.mem_cons]

theorem mem_sortStudents_aux :
    ∀ (l acc : List StudentAttendance) (x : StudentAttendance),
      x ∈ l.foldl (fun acc s => insertSorted s acc) acc ↔
        x ∈ acc ∨ x ∈ l := by
  intro l
  induction l with
  | nil => intro acc x; simp
  | cons s rest ih =>
      intro acc x
      rw [List.foldl_cons, ih, mem_insertSorted, List.mem_cons]
      tauto

theorem mem_sortStudents (students : List StudentAttendance)
    (x : StudentAttendance) :
    x ∈ sortStudents students ↔ x ∈ students := by
  unfold sortStudents
  rw [mem_sortStudents_aux]
  simp

theorem classify_sid (c : Cell) (i : Nat) (st st' : HeaderCols)
    (h : classifyCell c i st = .ok st') :
    st'.sid_col = st.sid_col ∨
      (st'.sid_col = some i ∧ c = Cell.str "OrgDefinedId") := by
  unfold classifyCell at h
  split_ifs at h with h1 h2
  · cases h
    exact Or.inr ⟨rfl, h1⟩
  · cases h
    exact Or.inl rfl
  · split at h
    · split_ifs at h with h3
      cases h
      exact Or.inl rfl
    · cases h

theorem classify_username (c : Cell) (i : Nat) (st st' : HeaderCols)
    (h : classifyCell c i st = .ok st') :
    st'.username_col = st.username_col ∨
      (st'.username_col = some i ∧ c = Cell.str "Username") := by
  unfold classifyCell at h
  split_ifs at h with h1 h2
  · cases h
    exact Or.inl rfl
  · cases h
    exact Or.inr ⟨rfl, h2⟩
  · split at h
    · split_ifs at h with h3
      cases h
      exact Or.inl rfl
    · cases h

theorem classify_score (c : Cell) (i : Nat) (st st' : HeaderCols)
    (h : classifyCell c i st = .ok st') :
    st'.score_col = st.score_col ∨
      (st'.score_col = some i ∧
        ∃ s, c = Cell.str s ∧ strStartsWith "Tutorial" s = true) := by
  unfold classifyCell at h
  split_ifs at h with h1 h2
  · cases h
    exact Or.inl rfl
  · cases h
    exact Or.inl rfl
  · split at h
    · rename_i s
      split_ifs at h with h3
      cases h
      exact Or.inr ⟨rfl, s, rfl, h3⟩
    · cases h

theorem resolve_sid (sheet : Sheet) (cols : HeaderCols)
    (h : resolveColumns sheet = .ok cols) (i : Nat)
    (hi : cols.sid_col = some i) :
    1 ≤ i ∧ i ≤ 3 ∧ cellAt sheet.header i = Cell.str "OrgDefinedId" := by
  unfold resolveColumns at h
  split at h
  · cases h
  · rename_i st1 h1
    split at h
    · cases h
    · rename_i st2 h2
      rcases classify_sid _ 3 st2 cols h with h3 | ⟨h3, hc⟩
      · rcases classify_sid _ 2 st1 st2 h2 with h4 | ⟨h4, hc⟩
        · rcases classify_sid _ 1 ⟨none, none, none⟩ st1 h1 with
            h5 | ⟨h5, hc⟩
          · rw [h3, h4, h5] at hi
            cases hi
          · rw [h3, h4, h5] at hi
            injection hi with hie
            subst hie
            exact ⟨by omega, by omega, hc⟩
        · rw [h3, h4] at hi
          injection hi with hie
          subst hie
          exact ⟨by omega, by omega, hc⟩
      · rw [h3] at hi
        injection hi with hie
        subst hie
        exact ⟨by omega, by omega, hc⟩

theorem resolve_username (sheet : Sheet) (cols : HeaderCols)
    (h : resolveColumns sheet = .ok cols) (i : Nat)
    (hi : cols.username_col = some i) :
    1 ≤ i ∧ i ≤ 3 ∧ cellAt sheet.header i = Cell.str "Username" := by
  unfold resolveColumns at h
  split at h
  · cases h
  · rename_i st1 h1
    split at h
    · cases h
    · rename_i st2 h2
      rcases classify_username _ 3 st2 cols h with h3 | ⟨h3, hc⟩
      · rcases classify_username _ 2 st1 st2 h2 with h4 | ⟨h4, hc⟩
        · rcases classify_username _ 1 ⟨none, none, none⟩ st1 h1 with
            h5 | ⟨h5, hc⟩
          · rw [h3, h4, h5] at hi
            cases hi
          · rw [h3, h4, h5] at hi
            injection hi with hie
            subst hie
            exact ⟨by omega, by omega, hc⟩
        · rw [h3, h4] at hi
          injection hi with hie
          subst hie
          exact ⟨by omega, by omega, hc⟩
      · rw [h3] at hi
        injection hi with hie
        subst hie
        exact ⟨by omega, by omega, hc⟩

theorem resolve_score (sheet : Sheet) (cols : HeaderCols)
    (h : resolveColumns sheet = .ok cols) (i : Nat)
    (hi : cols.score_col = some i) :
    1 ≤ i ∧ i ≤ 3 ∧ ∃ s, cellAt sheet.header i = Cell.str s ∧
      strStartsWith "Tutorial" s = true := by
  unfold resolveColumns at h
  split at h
  · cases h
  · rename_i st1 h1
    split at h
    · cases h
    · rename_i st2 h2
      rcases classify_score _ 3 st2 cols h with h3 | ⟨h3, hc⟩
      · rcases classify_score _ 2 st1 st2 h2 with h4 | ⟨h4, hc⟩
        · rcases classify_score _ 1 ⟨none, none, none⟩ st1 h1 with
            h5 | ⟨h5, hc⟩
          · rw [h3, h4, h5] at hi
            cases hi
          · rw [h3, h4, h5] at hi
            injection hi with hie
            subst hie
            exact ⟨by omega, by omega, hc⟩
        · rw [h3, h4] at hi
          injection hi with hie
          subst hie
          exact ⟨by omega, by omega, hc⟩
      · rw [h3] at hi
        injection hi with hie
        subst hie
        exact ⟨by omega, by omega, hc⟩

/-- C9: evaluation of the save at its failing input.  `_write_tutorial_list`
applied to an empty record list fails (Python's loop variable `row` is
never bound, so `return row - 1` raises `NameError`) instead of
returning 0; for a nonempty list it returns the number of records
written. -/
theorem c9_write_count_eval :
    write_tutorial_list
        ⟨[Cell.str "OrgDefinedId", Cell.str "Username",
          Cell.str "Tutorial 6"], []⟩ [] =
      .error "NameError: name row is not defined" ∧
    write_tutorial_list
        ⟨[Cell.str "OrgDefinedId", Cell.str "Username",
          Cell.str "Tutorial 6"], []⟩
        [⟨Cell.str "#a", Cell.num 100, 1⟩,
         ⟨Cell.str "#b", Cell.num 101, 2⟩] =
      .ok (⟨[Cell.str "OrgDefinedId", Cell.str "Username",
          Cell.str "Tutorial 6"],
        [[Cell.num 100, Cell.str "#a", Cell.num 1],
         [Cell.num 101, Cell.str "#b", Cell.num 2]]⟩, 2) :=
  ⟨rfl, rfl⟩

/-- C3, counterexample: a username absent from the roster that occurs
three times in the token list does not raise; the run completes and
writes. -/
theorem c3_counterexample :
    load_student_attendance ["#ghost", "#ghost", "#ghost"] =
      .ok ["#ghost", "#ghost", "#ghost"] ∧
    (["#ghost", "#ghost", "#ghost"] : List String).count "#ghost" = 3 ∧
    run true ["#ghost", "#ghost", "#ghost"]
        ⟨[Cell.str "OrgDefinedId", Cell.str "Username",
          Cell.str "Tutorial 6"],
         [[Cell.num 100, Cell.str "#alice", Cell.num 1]]⟩ =
      .ok (⟨[Cell.str "OrgDefinedId", Cell.str "Username",
          Cell.str "Tutorial 6"],
         [[Cell.num 100, Cell.str "#alice", Cell.num 1]]⟩, 1) :=
  ⟨rfl, by decide, rfl⟩

/-- C3 as amended: when a username that is present in the roster index
occurs more than twice in the token list, the run aborts with an error
and the write phase is never reached. -/
theorem c3_overcount_aborts_run (o : Bool) (lines : List String)
    (sheet : Sheet) (usernames : List String) (d : Dict) (u : String)
    (hatt : load_student_attendance lines = .ok usernames)
    (hload : load_tutorial_list o sheet = .ok d)
    (hu : (dictLookup d (Cell.str u)).isSome = true)
    (hc : 2 < usernames.count u) :
    ∃ e, run o lines sheet = .error e := by
  have humem : u ∈ usernames := List.count_pos_iff.mp (by omega)
  obtain ⟨e, he⟩ := update_loop_err usernames usernames.dedup d
    ⟨u, List.mem_dedup.mpr humem, hu, hc⟩
  refine ⟨e, ?_⟩
  unfold run
  rw [hatt]
  show (match load_tutorial_list o sheet with
    | .error e => (.error e : Except String (Sheet × Nat))
    | .ok d =>
        match update_attendance usernames d with
        | .error e => .error e
        | .ok students => write_tutorial_list sheet students) = .error e
  rw [hload]
  show (match update_attendance usernames d with
    | .error e => (.error e : Except String (Sheet × Nat))
    | .ok students => write_tutorial_list sheet students) = .error e
  have hupd : update_attendance usernames d = .error e := by
    unfold update_attendance updateIndex
    rw [he]
  rw [hupd]

/-- Closed witness for C3 as amended: `"#alice"` is in the roster and
checks in three times, so the run aborts. -/
theorem c3_witness :
    ∃ e, run true ["#alice", "#alice", "#alice"]
        ⟨[Cell.str "OrgDefinedId", Cell.str "Username",
          Cell.str "Tutorial 6"],
         [[Cell.num 100, Cell.str "#alice", Cell.num 1]]⟩ = .error e :=
  c3_overcount_aborts_run true ["#alice", "#alice", "#alice"]
    ⟨[Cell.str "OrgDefinedId", Cell.str "Username",
      Cell.str "Tutorial 6"],
     [[Cell.num 100, Cell.str "#alice", Cell.num 1]]⟩
    ["#alice", "#alice", "#alice"]
    [(Cell.str "#alice", ⟨Cell.str "#alice", Cell.num 100, 1⟩)]
    "#alice" (by rfl) (by rfl) (by rfl) (by decide)

/-- The score cell written back for a stored score cell `cs` under
mode `o`: a positive numeric score at most `MAX_SCORE` is preserved, a
larger one is clamped to `MAX_SCORE`, everything else becomes an empty
cell. -/
def writtenCell (o : Bool) (cs : Cell) : Cell :=
  match o, cs with
  | true, Cell.num s =>
      if 0 < s then
        (if s ≤ MAX_SCORE then Cell.num s else Cell.num MAX_SCORE)
      else Cell.empty
  | _, _ => Cell.empty

theorem scoreCell_scoreFromCell (o : Bool) (cs : Cell) :
    scoreCell (scoreFromCell o cs) = writtenCell o cs := by
  unfold writtenCell
  cases o with
  | false =>
      rw [scoreFromCell_false]
      cases cs <;> rfl
  | true =>
      cases cs with
      | empty => rfl
      | str s => rfl
      | num s =>
          show scoreCell (if 0 < s then min s MAX_SCORE else 0) =
            if 0 < s then
              (if s ≤ MAX_SCORE then Cell.num s else Cell.num MAX_SCORE)
            else Cell.empty
          by_cases hs : 0 < s
          · rw [if_pos hs, if_pos hs]
            by_cases hle : s ≤ MAX_SCORE
            · rw [if_pos hle, min_def, if_pos hle]
              unfold scoreCell
              rw [if_pos hs]
            · rw [if_neg hle, min_def, if_neg hle]
              unfold scoreCell
              rw [if_pos (by unfold MAX_SCORE; omega : (0 : Int) < MAX_SCORE)]
          · rw [if_neg hs, if_neg hs]
            rfl

/-- C4, counterexample: with overwrite mode on, a stored score of 5
(above `MAX_SCORE = 2`) is not left unchanged by a load / reconcile-
with-no-tokens / save round trip: the written cell holds 2. -/
theorem c4_counterexample :
    run true []
        ⟨[Cell.str "OrgDefinedId", Cell.str "Username",
          Cell.str "Tutorial 6"],
         [[Cell.num 100, Cell.str "#a", Cell.num 5]]⟩ =
      .ok (⟨[Cell.str "OrgDefinedId", Cell.str "Username",
          Cell.str "Tutorial 6"],
         [[Cell.num 100, Cell.str "#a", Cell.num 2]]⟩, 1) ∧
    Cell.num 5 ≠ Cell.num 2 :=
  ⟨rfl, by decide⟩

/-- C4 as amended: a run with an empty token list rewrites, for every
loaded data row, a row with the same username cell whose score cell is
the stored score normalized: in overwrite mode a stored numeric score
`s` with `0 < s ≤ MAX_SCORE` is written back unchanged, `s > MAX_SCORE`
is clamped to `MAX_SCORE`, and a non-positive, empty or reset-mode
score is written as an empty cell. -/
theorem c4_empty_reconcile_roundtrip (o : Bool) (sheet : Sheet)
    (cols : HeaderCols) (d : Dict) (sheet' : Sheet) (n : Nat)
    (row : List Cell)
    (hres : resolveColumns sheet = .ok cols)
    (hload : load_tutorial_list o sheet = .ok d)
    (hrun : run o [] sheet = .ok (sheet', n))
    (hrow : row ∈ dataRows sheet) :
    ∃ b c, cols.username_col = some b ∧ cols.score_col = some c ∧
      ∃ row' ∈ sheet'.rows, cellAt row' b = cellAt row b ∧
        cellAt row' c = writtenCell o (cellAt row c) := by
  obtain ⟨cols', hcols', hrows⟩ := load_ok_elim o sheet d hload
  rw [hres] at hcols'
  injection hcols' with hce
  subst hce
  obtain ⟨key, r, hkey, hrec, hmem⟩ :=
    load_rows_forward o cols (dataRows sheet) [] d hrows row hrow
  obtain ⟨huser, ⟨sid, hsid, -⟩, cs, hcs, hscore⟩ :=
    rowRecord_spec o cols key row r hrec
  rcases hB : cols.username_col with - | b
  · rw [hB] at hkey
    cases hkey
  rcases hC : cols.score_col with - | c
  · rw [hC] at hcs
    cases hcs
  rcases hA : cols.sid_col with - | a
  · rw [hA] at hsid
    cases hsid
  rw [hB] at hkey
  injection hkey with hkeyv
  rw [hC] at hcs
  injection hcs with hcsv
  obtain ⟨h1a, -, hAcell⟩ := resolve_sid sheet cols hres a hA
  obtain ⟨h1b, -, hBcell⟩ := resolve_username sheet cols hres b hB
  obtain ⟨h1c, -, s, hCcell, hCstart⟩ := resolve_score sheet cols hres c hC
  have hab : a ≠ b := by
    intro h
    rw [h, hBcell] at hAcell
    exact absurd hAcell (by decide)
  have hac : a ≠ c := by
    intro h
    rw [h, hCcell] at hAcell
    injection hAcell with hse
    rw [hse] at hCstart
    exact absurd hCstart (by decide)
  have hbc : b ≠ c := by
    intro h
    rw [h, hCcell] at hBcell
    injection hBcell with hse
    rw [hse] at hCstart
    exact absurd hCstart (by decide)
  have hrun1 : (match load_tutorial_list o sheet with
      | .error e => (.error e : Except String (Sheet × Nat))
      | .ok d0 =>
          match update_attendance [] d0 with
          | .error e => .error e
          | .ok students => write_tutorial_list sheet students) =
        .ok (sheet', n) := hrun
  rw [hload] at hrun1
  have hrun2 : (match update_attendance [] d with
      | .error e => (.error e : Except String (Sheet × Nat))
      | .ok students => write_tutorial_list sheet students) =
        .ok (sheet', n) := hrun1
  have hnil : update_attendance [] d = .ok (d.map (fun p => p.2)) := rfl
  rw [hnil] at hrun2
  have hw : write_tutorial_list sheet (d.map (fun p => p.2)) =
      .ok (sheet', n) := hrun2
  obtain ⟨cols2, rows', lastn, hcols2, hloop, hsheet', -⟩ :=
    write_ok_elim sheet (d.map (fun p => p.2)) sheet' n hw
  rw [hres] at hcols2
  injection hcols2 with hc2
  subst hc2
  have hrs : r ∈ sortStudents (d.map (fun p => p.2)) :=
    (mem_sortStudents _ r).mpr (List.mem_map_of_mem (fun p => p.2) hmem)
  obtain ⟨row', hrow', hcellA, hcellB, hcellC⟩ :=
    writeLoop_mem cols a b c h1a h1b h1c hab hac hbc hA hB hC
      (sortStudents (d.map (fun p => p.2))) sheet.rows 0 rows'
      (some lastn) hloop r hrs
  refine ⟨b, c, rfl, rfl, row', ?_, ?_, ?_⟩
  · rw [hsheet']
    exact hrow'
  · rw [hcellB, huser, ← hkeyv]
  · rw [hcellC, hscore, ← hcsv]
    exact scoreCell_scoreFromCell o (cellAt row c)

/-- Closed witness for C4 as amended, at a sheet whose single stored
score is 5 and gets written back as 2. -/
theorem c4_witness :
    ∃ b c,
      (⟨some 1, some 2, some 3⟩ : HeaderCols).username_col = some b ∧
      (⟨some 1, some 2, some 3⟩ : HeaderCols).score_col = some c ∧
      ∃ row' ∈ (⟨[Cell.str "OrgDefinedId", Cell.str "Username",
          Cell.str "Tutorial 6"],
         [[Cell.num 100, Cell.str "#a", Cell.num 2]]⟩ : Sheet).rows,
        cellAt row' b =
          cellAt [Cell.num 100, Cell.str "#a", Cell.num 5] b ∧
        cellAt row' c =
          writtenCell true
            (cellAt [Cell.num 100, Cell.str "#a", Cell.num 5] c) :=
  c4_empty_reconcile_roundtrip true
    ⟨[Cell.str "OrgDefinedId", Cell.str "Username",
      Cell.str "Tutorial 6"],
     [[Cell.num 100, Cell.str "#a", Cell.num 5]]⟩
    ⟨some 1, some 2, some 3⟩
    [(Cell.str "#a", ⟨Cell.str "#a", Cell.num 100, 2⟩)]
    ⟨[Cell.str "OrgDefinedId", Cell.str "Username",
      Cell.str "Tutorial 6"],
     [[Cell.num 100, Cell.str "#a", Cell.num 2]]⟩ 1
    [Cell.num 100, Cell.str "#a", Cell.num 5]
    (by rfl) (by rfl) (by rfl) (by decide)

end Attendance
